import Mathlib

/-!
Verification development for the Proximity repository: a 2-D multiplayer
space where a Node/socket.io server keeps an in-memory player registry and
each client computes pairwise proximity to drive WebRTC call sessions, with
an alternative zone-based (Jitsi) strategy described in the backend blueprint.

Conventions of the shallow embedding:
* JavaScript numbers that the claims compare with `<`, `<=`, `>=` are
  modelled as `Int` (exact arithmetic; every claim here is order-theoretic
  and holds for any linearly ordered field, and IEEE subtraction/square/sqrt
  are order-independent for these comparisons).
* JS objects keyed by socket id (`players = {}`, `this.players`,
  `webRTCService.peers`) are modelled as association lists in insertion
  order, matching JS property-enumeration order for string keys.
* `socket.emit` / `io.to(..).emit` effects are returned explicitly as event
  lists.
* JS string comparison `socket.id < peerId` is lexicographic on code units;
  it is modelled by Lean's lexicographic `String` order.
-/

/-- A player as kept by the server socket handler (`socketHandler.js`):
`players[socket.id] = { id, x, y, anim }`. -/
structure PlayerRec where
  id : String
  x : Int
  y : Int
  anim : String
deriving DecidableEq, Repr

/-- A remote player sprite as kept by the client scene (`GameScene.js`,
`this.players[id]`): only id and position matter for proximity. -/
structure ScenePlayer where
  id : String
  x : Int
  y : Int
deriving DecidableEq, Repr

/-- `const threshold = 150;` in `GameScene.checkProximity`. -/
def proximityThreshold : Int := 150

/-- Squared Euclidean distance. `GameScene.checkProximity` computes
`Phaser.Math.Distance.Between(x1,y1,x2,y2) = sqrt((x2-x1)^2 + (y2-y1)^2)`
and compares it with `threshold`; for nonnegative radicands
`sqrt d < t ↔ d < t^2`, so the embedding compares squares. -/
def distSq (x1 y1 x2 y2 : Int) : Int :=
  (x2 - x1) ^ 2 + (y2 - y1) ^ 2

/-- `GameScene.checkProximity`: iterate over the other players (the local
player is stored separately in `this.player` and is not in `this.players`),
collect the ids whose distance to the local player is strictly below the
threshold, in enumeration order. -/
def checkProximity (meX meY : Int) (others : List ScenePlayer) : List String :=
  (others.filter fun q => distSq meX meY q.x q.y < proximityThreshold ^ 2).map ScenePlayer.id

/-- `GameScene.removePlayer(playerId)`: destroy the sprite and delete
`this.players[playerId]` (a no-op when the id is absent). -/
def removePlayer (players : List ScenePlayer) (pid : String) : List ScenePlayer :=
  players.filter fun r => r.id ≠ pid

/-- Result of one run of the `proximityUpdate` handler in `App.jsx`:
the surviving peer map keys, the ids for which `createPeer(peerId, true)`
was called (one "open"/negotiation start each), and the ids for which
`removePeer(peerId)` destroyed a connection. -/
structure ProxResult where
  peers : List String
  opens : List String
  closes : List String
deriving DecidableEq, Repr

/-- First loop of the `proximityUpdate` handler (`App.jsx`):
`closePlayers.forEach(peerId => { if (!webRTCService.peers[peerId]) {
if (socket.id < peerId) webRTCService.createPeer(peerId, true); } })`.
Returns the updated peer-key list and the ids passed to `createPeer`. -/
def createPeerLoop (myId : String) : List String → List String → List String × List String
  | peers, [] => (peers, [])
  | peers, pid :: rest =>
    if pid ∈ peers then createPeerLoop myId peers rest
    else if myId < pid then
      let r := createPeerLoop myId (peers ++ [pid]) rest
      (r.1, pid :: r.2)
    else createPeerLoop myId peers rest

/-- The whole `proximityUpdate` handler (`App.jsx`): the create loop above,
then `Object.keys(webRTCService.peers).forEach(peerId => {
if (!closePlayers.includes(peerId)) webRTCService.removePeer(peerId); })`. -/
def proximityUpdateHandler (myId : String) (peers closePlayers : List String) : ProxResult :=
  let r := createPeerLoop myId peers closePlayers
  ⟨r.1.filter (fun pid => pid ∈ closePlayers), r.2,
    r.1.filter (fun pid => pid ∉ closePlayers)⟩

/-- JS object assignment `m[k] = v` on an insertion-ordered association
list: replace the value at an existing key in place, else append. -/
def objSet : List (String × PlayerRec) → String → PlayerRec → List (String × PlayerRec)
  | [], k, v => [(k, v)]
  | (k', v') :: rest, k, v =>
    if k' = k then (k, v) :: rest else (k', v') :: objSet rest k v

/-- The record the server creates on connection (`socketHandler.js`):
`players[socket.id] = { id: socket.id, x: 400, y: 300, anim: 'idle' }`. -/
def spawnRec (sid : String) : PlayerRec :=
  ⟨sid, 400, 300, "idle"⟩

/-- Result of the server's `io.on(CONNECT)` body (`socketHandler.js`):
the updated registry, the `PLAYERS_SYNC` payload emitted to the new socket,
and the `PLAYER_JOIN` record broadcast to the others. -/
structure ConnectResult where
  players : List (String × PlayerRec)
  syncPayload : List (String × PlayerRec)
  joinBroadcast : PlayerRec
deriving DecidableEq, Repr

/-- Server `connection` handler (`socketHandler.js`): unconditionally assign
`players[socket.id]` a fresh spawn record, then `socket.emit(PLAYERS_SYNC,
players)` (the registry after the assignment) and
`socket.broadcast.emit(PLAYER_JOIN, players[socket.id])`. There is no
presence check and no failure path. -/
def connectionHandler (players : List (String × PlayerRec)) (sid : String) : ConnectResult :=
  let players' := objSet players sid (spawnRec sid)
  ⟨players', players', spawnRec sid⟩

/-- The client's `PLAYERS_SYNC` listener (`GameScene.js`) calls
`createMyPlayer` exactly when some record in the payload has
`player.id === this.myPlayerId`. -/
def syncCreatesLocal (payload : List (String × PlayerRec)) (myId : String) : Bool :=
  payload.any fun kv => kv.2.id == myId

/-- Server `PLAYER_MOVE` handler (`socketHandler.js`): if
`players[socket.id]` exists, overwrite its `x`, `y`, `anim` and broadcast
`{ id: socket.id, ...movementData }` to the other connections; otherwise do
nothing (no registry change, no broadcast). The returned list holds the
broadcast messages (at most one). -/
def playerMoveHandler (players : List (String × PlayerRec)) (sid : String)
    (mx my : Int) (manim : String) : List (String × PlayerRec) × List PlayerRec :=
  if (players.lookup sid).isSome then
    (objSet players sid ⟨sid, mx, my, manim⟩, [⟨sid, mx, my, manim⟩])
  else (players, [])

/-- Server `DISCONNECT` handler (`socketHandler.js`):
`delete players[socket.id]` and broadcast `PLAYER_LEAVE` with the id. -/
def disconnectHandler (players : List (String × PlayerRec)) (sid : String) :
    List (String × PlayerRec) × String :=
  (players.filter (fun kv => kv.1 ≠ sid), sid)

/-- One signal delivery: `io.to(d.toId).emit(WEBRTC_SIGNAL,
{ senderId, signal })`. The payload type is a parameter: the relay never
inspects it. -/
structure Delivery (Sig : Type) where
  toId : String
  senderId : String
  signal : Sig
deriving DecidableEq, Repr

/-- Server `WEBRTC_SIGNAL` handler (`socketHandler.js`): drop the request
when `targetId` or `signal` is missing; otherwise
`io.to(data.targetId).emit(...)`, which delivers to every active connection
in the room named `targetId` — each socket.io connection is in the room of
its own id, so the message reaches the target iff it is connected, and no
one else. `conns` is the list of active connection ids. -/
def webrtcSignalHandler {Sig : Type} (conns : List String) (senderId : String)
    (targetId : Option String) (signal : Option Sig) : List (Delivery Sig) :=
  match targetId, signal with
  | some t, some s => (conns.filter fun c => c = t).map fun c => ⟨c, senderId, s⟩
  | _, _ => []

/-- A Jitsi trigger zone from the blueprint's `mapParser.ts`: rectangle plus
the `jitsiRoom` property value, kept in load (insertion) order. -/
structure Zone where
  room : String
  x : Int
  y : Int
  width : Int
  height : Int
deriving DecidableEq, Repr

/-- The AABB test of `getJitsiRoomForPosition` (`mapParser.ts`):
`x >= zone.x && x <= zone.x + zone.width && y >= zone.y && y <= zone.y +
zone.height` — inclusive on both bounds. -/
def zoneContains (z : Zone) (x y : Int) : Bool :=
  z.x ≤ x ∧ x ≤ z.x + z.width ∧ z.y ≤ y ∧ y ≤ z.y + z.height

/-- `getJitsiRoomForPosition(x, y)` (`mapParser.ts`): walk the loaded zones
in insertion (load) order, return the first room whose rectangle contains
the point, else null. -/
def getJitsiRoomForPosition : List Zone → Int → Int → Option String
  | [], _, _ => none
  | z :: rest, x, y =>
    if zoneContains z x y then some z.room else getJitsiRoomForPosition rest x y

/-- Events `checkJitsiZone` can emit to the client (`videoHandler.ts`):
`socket.emit('join-jitsi', { roomName })` / `socket.emit('leave-jitsi',
{ roomName })`. -/
inductive JEvent where
  | join (roomName : String)
  | leave (roomName : String)
deriving DecidableEq, Repr

/-- `checkJitsiZone` (`videoHandler.ts`), for an existing player. `cur` is
the stored `currentJitsiRoom` string — per the blueprint's Redis data model
it is the literal string `"null"` or a room name (Redis hashes hold
strings, and `setPlayerJitsiRoom` writes `jitsiRoom || 'null'`). The new
zone is recomputed from the position; `currentJitsiRoom === newJitsiRoom`
can only hold when the new zone is a room equal to `cur` (a string is never
`===` the JS `null`). On entry the room is stored and one `join-jitsi`
fires; otherwise the stored room becomes `"null"` and one `leave-jitsi`
fires carrying the previously stored string. Returns the new stored value
and the emitted events. -/
def checkJitsiZone (zones : List Zone) (cur : String) (x y : Int) : String × List JEvent :=
  match getJitsiRoomForPosition zones x y with
  | some r => if cur = r then (cur, []) else (r, [JEvent.join r])
  | none => ("null", [JEvent.leave cur])

/-! ## Theorems -/

theorem distSq_comm (x1 y1 x2 y2 : Int) : distSq x1 y1 x2 y2 = distSq x2 y2 x1 y1 := by
  unfold distSq; ring

theorem mem_checkProximity {a : String} {meX meY : Int} {others : List ScenePlayer} :
    a ∈ checkProximity meX meY others ↔
      ∃ r ∈ others, r.id = a ∧ distSq meX meY r.x r.y < proximityThreshold ^ 2 := by
  unfold checkProximity
  simp only [List.mem_map, List.mem_filter, decide_eq_true_eq]
  constructor
  · rintro ⟨r, ⟨hr, hd⟩, rfl⟩
    exact ⟨r, hr, rfl, hd⟩
  · rintro ⟨r, hr, rfl, hd⟩
    exact ⟨r, ⟨hr, hd⟩, rfl⟩

theorem createPeerLoop_fst (myId : String) (close : List String) :
    ∀ peers, (createPeerLoop myId peers close).1 = peers ++ (createPeerLoop myId peers close).2 := by
  induction close with
  | nil => intro peers; simp [createPeerLoop]
  | cons pid rest ih =>
    intro peers
    by_cases hmem : pid ∈ peers
    · simpa [createPeerLoop, hmem] using ih peers
    · by_cases hlt : myId < pid
      · have := ih (peers ++ [pid])
        simp only [createPeerLoop, if_neg hmem, if_pos hlt]
        rw [this]; simp
      · simpa [createPeerLoop, hmem, hlt] using ih peers

theorem mem_createPeerLoop_opens (myId pid : String) (close : List String) :
    ∀ peers, pid ∈ (createPeerLoop myId peers close).2 →
      pid ∉ peers ∧ pid ∈ close ∧ myId < pid := by
  induction close with
  | nil => intro peers h; simp [createPeerLoop] at h
  | cons q rest ih =>
    intro peers h
    by_cases hmem : q ∈ peers
    · rcases ih peers (by simpa [createPeerLoop, hmem] using h) with ⟨h1, h2, h3⟩
      exact ⟨h1, List.mem_cons_of_mem _ h2, h3⟩
    · by_cases hlt : myId < q
      · simp only [createPeerLoop, if_neg hmem, if_pos hlt, List.mem_cons] at h
        rcases h with rfl | h
        · exact ⟨hmem, List.mem_cons_self _ _, hlt⟩
        · rcases ih (peers ++ [q]) h with ⟨h1, h2, h3⟩
          have : pid ∉ peers := fun hc => h1 (List.mem_append_left _ hc)
          exact ⟨this, List.mem_cons_of_mem _ h2, h3⟩
      · rcases ih peers (by simpa [createPeerLoop, hmem, hlt] using h) with ⟨h1, h2, h3⟩
        exact ⟨h1, List.mem_cons_of_mem _ h2, h3⟩

/-- C1. Proximity symmetry: in any snapshot (a list of players with distinct
ids), for distinct players `p` and `q`, `q.id` is in the proximity list that
`p`'s client computes (over the snapshot minus `p` itself) iff `p.id` is in
the proximity list that `q`'s client computes, because the strict-threshold
Euclidean test of `checkProximity` is symmetric in the two endpoints. -/
theorem checkProximity_symm (ps : List ScenePlayer) (p q : ScenePlayer)
    (hnd : (ps.map ScenePlayer.id).Nodup) (hp : p ∈ ps) (hq : q ∈ ps) (hne : p.id ≠ q.id) :
    (q.id ∈ checkProximity p.x p.y (ps.filter fun r => r.id ≠ p.id) ↔
      p.id ∈ checkProximity q.x q.y (ps.filter fun r => r.id ≠ q.id)) := by
  have hinj := List.inj_on_of_nodup_map hnd
  constructor
  · intro h
    rcases mem_checkProximity.1 h with ⟨r, hr, hid, hd⟩
    have hrps : r ∈ ps := (List.mem_filter.1 hr).1
    have : r = q := hinj hrps hq hid
    subst this
    refine mem_checkProximity.2 ⟨p, ?_, rfl, ?_⟩
    · exact List.mem_filter.2 ⟨hp, by simpa using hne⟩
    · rw [distSq_comm]; exact hd
  · intro h
    rcases mem_checkProximity.1 h with ⟨r, hr, hid, hd⟩
    have hrps : r ∈ ps := (List.mem_filter.1 hr).1
    have : r = p := hinj hrps hp hid
    subst this
    refine mem_checkProximity.2 ⟨q, ?_, rfl, ?_⟩
    · exact List.mem_filter.2 ⟨hq, by simpa using hne.symm⟩
    · rw [distSq_comm]; exact hd

/-- Witness for C1 on a concrete snapshot: players "a" at (0,0) and
"b" at (10, 0) are mutually within the 150 threshold. -/
theorem checkProximity_symm_witness :
    ("b" ∈ checkProximity 0 0 ([⟨"a", 0, 0⟩, ⟨"b", 10, 0⟩].filter
          fun r => r.id ≠ "a") ↔
      "a" ∈ checkProximity 10 0 ([⟨"a", 0, 0⟩, ⟨"b", 10, 0⟩].filter
          fun r => r.id ≠ "b")) := by
  have h := checkProximity_symm [⟨"a", 0, 0⟩, ⟨"b", 10, 0⟩] ⟨"a", 0, 0⟩ ⟨"b", 10, 0⟩
    (by decide) (by decide) (by decide) (by decide)
  exact h

/-- C2. Idempotent open: if a peer connection for `pid` already exists
(`pid` is a key of `webRTCService.peers`) and a proximity recomputation
again reports `pid` close, the handler calls `createPeer` for no such key
(no second open/negotiation) and the peer map still holds exactly one entry
for `pid` afterwards. -/
theorem idempotent_open (myId pid : String) (peers close : List String)
    (hnd : peers.Nodup) (hin : pid ∈ peers) (hclose : pid ∈ close) :
    pid ∉ (proximityUpdateHandler myId peers close).opens ∧
      (proximityUpdateHandler myId peers close).peers.count pid = 1 := by
  have hopens : pid ∉ (createPeerLoop myId peers close).2 := fun h =>
    (mem_createPeerLoop_opens myId pid close peers h).1 hin
  refine ⟨hopens, ?_⟩
  simp only [proximityUpdateHandler]
  rw [List.count_filter (by simpa using hclose)]
  rw [createPeerLoop_fst, List.count_append,
    List.count_eq_one_of_mem hnd hin,
    List.count_eq_zero_of_not_mem hopens]

/-- Witness for C2: peer "b" already active and still close. -/
theorem idempotent_open_witness :
    "b" ∉ (proximityUpdateHandler "a" ["b"] ["b"]).opens ∧
      (proximityUpdateHandler "a" ["b"] ["b"]).peers.count "b" = 1 :=
  idempotent_open "a" "b" ["b"] ["b"] (by decide) (by decide) (by decide)

/-- C3. Deterministic initiator tie-break: when the pair `{a, b}` becomes
newly proximate (no existing peer on either side, each side sees the other
in its `closePlayers`), side `x` calls `createPeer(other, true)` iff
`x`'s id sorts lexicographically first; exactly one of the two sides
initiates, and both designations follow from the same order on the two
ids alone. -/
theorem initiator_tiebreak (a b : String) (hne : a ≠ b) :
    ((proximityUpdateHandler a [] [b]).opens = [b] ↔ a < b) ∧
      ((proximityUpdateHandler b [] [a]).opens = [a] ↔ b < a) ∧
      ((a < b ∧ ¬ b < a) ∨ (b < a ∧ ¬ a < b)) := by
  have h1 : ∀ x y : String,
      (proximityUpdateHandler x [] [y]).opens = if x < y then [y] else [] := by
    intro x y
    by_cases h : x < y <;> simp [proximityUpdateHandler, createPeerLoop, h]
  refine ⟨?_, ?_, ?_⟩
  · rw [h1]; by_cases h : a < b <;> simp [h]
  · rw [h1]; by_cases h : b < a <;> simp [h]
  · rcases lt_trichotomy a b with h | h | h
    · exact Or.inl ⟨h, lt_asymm h⟩
    · exact absurd h hne
    · exact Or.inr ⟨h, lt_asymm h⟩

/-- Witness for C3 at the concrete pair {"a", "b"}. -/
theorem initiator_tiebreak_witness :
    ((proximityUpdateHandler "a" [] ["b"]).opens = ["b"] ↔ "a" < "b") ∧
      ((proximityUpdateHandler "b" [] ["a"]).opens = ["a"] ↔ "b" < "a") ∧
      (("a" < "b" ∧ ¬ "b" < "a") ∨ ("b" < "a" ∧ ¬ "a" < "b")) :=
  initiator_tiebreak "a" "b" (by decide)

/-- C4. Clean close on disconnect: once the scene has removed the record of
the disconnected id `pid` (`removePlayer`, driven by `PLAYER_LEAVE`), the
next proximity recomputation cannot report `pid`, so the `proximityUpdate`
handler leaves no peer entry for `pid` and calls `removePeer`/destroy for
`pid` exactly once. -/
theorem clean_close_on_disconnect (me : ScenePlayer) (others : List ScenePlayer)
    (peers : List String) (pid : String) (hnd : peers.Nodup) (hin : pid ∈ peers) :
    pid ∉ (proximityUpdateHandler me.id peers
        (checkProximity me.x me.y (removePlayer others pid))).peers ∧
      (proximityUpdateHandler me.id peers
        (checkProximity me.x me.y (removePlayer others pid))).closes.count pid = 1 := by
  set close := checkProximity me.x me.y (removePlayer others pid) with hc
  have hpc : pid ∉ close := by
    intro h
    rcases mem_checkProximity.1 h with ⟨r, hr, hid, _⟩
    have : r.id ≠ pid := by
      have h2 := (List.mem_filter.1 hr).2
      simpa using h2
    exact this hid
  have hopens : pid ∉ (createPeerLoop me.id peers close).2 := fun h =>
    hpc (mem_createPeerLoop_opens me.id pid close peers h).2.1
  constructor
  · intro h
    have h2 : pid ∈ (createPeerLoop me.id peers close).1 ∧ pid ∈ close := by
      simpa [proximityUpdateHandler] using h
    exact hpc h2.2
  · simp only [proximityUpdateHandler]
    rw [List.count_filter (by simpa using hpc)]
    rw [createPeerLoop_fst, List.count_append,
      List.count_eq_one_of_mem hnd hin,
      List.count_eq_zero_of_not_mem hopens]

/-- Witness for C4: "b" disconnects while an active peer for "b" exists. -/
theorem clean_close_on_disconnect_witness :
    "b" ∉ (proximityUpdateHandler "a" ["b"]
        (checkProximity 0 0 (removePlayer [⟨"b", 10, 0⟩] "b"))).peers ∧
      (proximityUpdateHandler "a" ["b"]
        (checkProximity 0 0 (removePlayer [⟨"b", 10, 0⟩] "b"))).closes.count "b" = 1 := by
  have h := clean_close_on_disconnect ⟨"a", 0, 0⟩ [⟨"b", 10, 0⟩] ["b"] "b" (by decide) (by decide)
  exact h

theorem lookup_objSet_self (m : List (String × PlayerRec)) (k : String) (v : PlayerRec) :
    (objSet m k v).lookup k = some v := by
  induction m with
  | nil => simp [objSet]
  | cons kv rest ih =>
    obtain ⟨k', v'⟩ := kv
    by_cases h : k' = k
    · simp [objSet, h]
    · have hkk : (k == k') = false := beq_eq_false_iff_ne.2 (Ne.symm h)
      simp only [objSet, if_neg h, List.lookup, hkk]
      exact ih

theorem lookup_objSet_ne (m : List (String × PlayerRec)) (k : String) (v : PlayerRec)
    (k' : String) (h : k' ≠ k) : (objSet m k v).lookup k' = m.lookup k' := by
  have hk'k : (k' == k) = false := beq_eq_false_iff_ne.2 h
  induction m with
  | nil => simp [objSet, List.lookup, hk'k]
  | cons kv rest ih =>
    obtain ⟨a, b⟩ := kv
    by_cases ha : a = k
    · subst ha
      simp [objSet, List.lookup, hk'k]
    · by_cases hb : k' = a
      · subst hb
        simp [objSet, ha, List.lookup]
      · have hka : (k' == a) = false := beq_eq_false_iff_ne.2 hb
        simp only [objSet, if_neg ha, List.lookup, hka]
        exact ih

theorem mem_objSet_self (m : List (String × PlayerRec)) (k : String) (v : PlayerRec) :
    (k, v) ∈ objSet m k v := by
  induction m with
  | nil => simp [objSet]
  | cons kv rest ih =>
    obtain ⟨k', v'⟩ := kv
    by_cases h : k' = k
    · simp [objSet, h]
    · simpa [objSet, h] using Or.inr ih

/-- C5. Stale update rejection: a `PLAYER_MOVE` for a connection id absent
from the registry leaves the registry unchanged and broadcasts nothing. -/
theorem playerMove_stale_noop (players : List (String × PlayerRec)) (sid : String)
    (mx my : Int) (manim : String) (h : players.lookup sid = none) :
    playerMoveHandler players sid mx my manim = (players, []) := by
  simp [playerMoveHandler, h]

/-- Witness for C5: a move from an unknown id on an empty registry. -/
theorem playerMove_stale_noop_witness :
    playerMoveHandler [] "ghost" 1 2 "walk" = ([], []) :=
  playerMove_stale_noop [] "ghost" 1 2 "walk" rfl

theorem filter_eq_singleton_of_nodup {l : List String} {a : String}
    (hnd : l.Nodup) (h : a ∈ l) : l.filter (fun c => c = a) = [a] := by
  induction l with
  | nil => simp at h
  | cons b rest ih =>
    rcases List.nodup_cons.1 hnd with ⟨hb, hrest⟩
    by_cases hba : b = a
    · subst hba
      have : rest.filter (fun c => c = b) = [] :=
        List.filter_eq_nil_iff.2 fun c hc => by
          simp only [decide_eq_true_eq]
          intro hcb
          exact hb (hcb ▸ hc)
      simp [this]
    · have ha : a ∈ rest := by
        rcases List.mem_cons.1 h with h' | h'
        · exact absurd h'.symm hba
        · exact h'
      simpa [hba] using ih hrest ha

/-- C6. Signaling relay contract: a well-formed signal whose target is an
active connection is delivered exactly once, to that connection only,
annotated with the sender id and with the payload value untouched (the
payload type `Sig` is abstract — the relay cannot inspect it); a signal to
an id that is not an active connection is delivered to no one; a request
missing its target id or its payload is dropped. -/
theorem webrtcSignal_relay_contract {Sig : Type} (conns : List String)
    (sender tid : String) (sig : Sig) (hnd : conns.Nodup) :
    (tid ∈ conns →
        webrtcSignalHandler conns sender (some tid) (some sig) = [⟨tid, sender, sig⟩]) ∧
      (tid ∉ conns → webrtcSignalHandler conns sender (some tid) (some sig) = []) ∧
      webrtcSignalHandler conns sender (none : Option String) (some sig) = [] ∧
      webrtcSignalHandler conns sender (some tid) (none : Option Sig) = [] := by
  refine ⟨fun h => ?_, fun h => ?_, rfl, rfl⟩
  · show (conns.filter fun c => c = tid).map _ = _
    rw [filter_eq_singleton_of_nodup hnd h]
    rfl
  · show (conns.filter fun c => c = tid).map _ = _
    have : conns.filter (fun c => c = tid) = [] :=
      List.filter_eq_nil_iff.2 fun c hc => by
        simp only [decide_eq_true_eq]
        intro hct
        exact h (hct ▸ hc)
    rw [this]
    rfl

/-- Witness for C6 with a connected target "b" (payload `Sig := Nat`). -/
theorem webrtcSignal_relay_contract_witness :
    webrtcSignalHandler ["a", "b"] "a" (some "b") (some (7 : Nat))
        = [⟨"b", "a", 7⟩] ∧
      webrtcSignalHandler ["a", "b"] "a" (some "c") (some (7 : Nat)) = [] := by
  have h1 := webrtcSignal_relay_contract ["a", "b"] "a" "b" (7 : Nat) (by decide)
  have h2 := webrtcSignal_relay_contract ["a", "b"] "a" "c" (7 : Nat) (by decide)
  exact ⟨h1.1 (by decide), h2.2.1 (by decide)⟩

/-- C7 counterexample: registering the already-present connection id "s1"
does not fail — the handler silently overwrites the stored record
(position (10,20), anim "walk") with a fresh spawn record. There is no
`DuplicateConnection` path anywhere in the handler. -/
theorem connection_overwrites_cex :
    (connectionHandler [("s1", ⟨"s1", 10, 20, "walk"⟩)] "s1").players
        = [("s1", ⟨"s1", 400, 300, "idle"⟩)] ∧
      (connectionHandler [("s1", ⟨"s1", 10, 20, "walk"⟩)] "s1").players.lookup "s1"
        ≠ some ⟨"s1", 10, 20, "walk"⟩ := by
  decide

/-- C7 amended: `connection` registration never fails; it unconditionally
stores a fresh default spawn record (400, 300, "idle") under the connection
id — overwriting any record already present — and leaves every other key's
record unchanged. -/
theorem connection_register_spec (players : List (String × PlayerRec)) (sid : String) :
    (connectionHandler players sid).players.lookup sid = some (spawnRec sid) ∧
      ∀ k, k ≠ sid → (connectionHandler players sid).players.lookup k = players.lookup k :=
  ⟨lookup_objSet_self players sid (spawnRec sid),
    fun k h => lookup_objSet_ne players sid (spawnRec sid) k h⟩

/-- Witness for the amended C7 at a concrete registry. -/
theorem connection_register_spec_witness :
    (connectionHandler [("s2", ⟨"s2", 1, 2, "walk"⟩)] "s1").players.lookup "s1"
        = some (spawnRec "s1") ∧
      (connectionHandler [("s2", ⟨"s2", 1, 2, "walk"⟩)] "s1").players.lookup "s2"
        = [("s2", (⟨"s2", 1, 2, "walk"⟩ : PlayerRec))].lookup "s2" :=
  ⟨(connection_register_spec [("s2", ⟨"s2", 1, 2, "walk"⟩)] "s1").1,
    (connection_register_spec [("s2", ⟨"s2", 1, 2, "walk"⟩)] "s1").2 "s2" (by decide)⟩

/-- C10. The `PLAYERS_SYNC` payload sent to a newly connected socket is the
registry after the new spawn record was inserted: it contains the joining
player's own fresh record (400, 300, "idle") under its id, it preserves
every previously connected player's record, and the client's sync listener
therefore finds the local id and creates the local player. -/
theorem sync_includes_self (players : List (String × PlayerRec)) (sid : String) :
    (connectionHandler players sid).syncPayload.lookup sid = some (spawnRec sid) ∧
      syncCreatesLocal (connectionHandler players sid).syncPayload sid = true ∧
      ∀ k, k ≠ sid → (connectionHandler players sid).syncPayload.lookup k = players.lookup k := by
  refine ⟨lookup_objSet_self players sid (spawnRec sid), ?_,
    fun k h => lookup_objSet_ne players sid (spawnRec sid) k h⟩
  have hmem := mem_objSet_self players sid (spawnRec sid)
  exact List.any_eq_true.2 ⟨(sid, spawnRec sid), hmem, by simp [spawnRec]⟩

/-- Witness for C10: "s1" joins while "s2" is already connected. -/
theorem sync_includes_self_witness :
    (connectionHandler [("s2", ⟨"s2", 1, 2, "walk"⟩)] "s1").syncPayload.lookup "s1"
        = some (spawnRec "s1") ∧
      syncCreatesLocal (connectionHandler [("s2", ⟨"s2", 1, 2, "walk"⟩)] "s1").syncPayload "s1"
        = true ∧
      (connectionHandler [("s2", ⟨"s2", 1, 2, "walk"⟩)] "s1").syncPayload.lookup "s2"
        = [("s2", (⟨"s2", 1, 2, "walk"⟩ : PlayerRec))].lookup "s2" := by
  have h := sync_includes_self [("s2", ⟨"s2", 1, 2, "walk"⟩)] "s1"
  exact ⟨h.1, h.2.1, h.2.2 "s2" (by decide)⟩

theorem getJitsiRoomForPosition_eq_none (x y : Int) :
    ∀ zones : List Zone, getJitsiRoomForPosition zones x y = none ↔
      ∀ z ∈ zones, zoneContains z x y = false := by
  intro zones
  induction zones with
  | nil => simp [getJitsiRoomForPosition]
  | cons z rest ih =>
    by_cases h : zoneContains z x y = true
    · simp [getJitsiRoomForPosition, h]
    · simp only [Bool.not_eq_true] at h
      simp [getJitsiRoomForPosition, h, ih]

theorem getJitsiRoomForPosition_eq_some (x y : Int) (r : String) :
    ∀ zones : List Zone, getJitsiRoomForPosition zones x y = some r →
      ∃ z ∈ zones, z.room = r ∧ zoneContains z x y = true := by
  intro zones
  induction zones with
  | nil => intro h; simp [getJitsiRoomForPosition] at h
  | cons z rest ih =>
    intro h
    by_cases hz : zoneContains z x y = true
    · simp only [getJitsiRoomForPosition, if_pos hz, Option.some.injEq] at h
      exact ⟨z, List.mem_cons_self _ _, h, hz⟩
    · simp only [getJitsiRoomForPosition, if_neg hz] at h
      rcases ih h with ⟨w, hw, hr, hc⟩
      exact ⟨w, List.mem_cons_of_mem _ hw, hr, hc⟩

theorem getJitsiRoomForPosition_first (x y : Int) :
    ∀ (pre : List Zone) (z : Zone) (post : List Zone), zoneContains z x y = true →
      (∀ w ∈ pre, zoneContains w x y = false) →
      getJitsiRoomForPosition (pre ++ z :: post) x y = some z.room := by
  intro pre
  induction pre with
  | nil => intro z post hz _; simp [getJitsiRoomForPosition, hz]
  | cons w pre' ih =>
    intro z post hz hpre
    have hw : zoneContains w x y = false := hpre w (List.mem_cons_self _ _)
    have : getJitsiRoomForPosition (pre' ++ z :: post) x y = some z.room :=
      ih z post hz fun u hu => hpre u (List.mem_cons_of_mem _ hu)
    simpa [getJitsiRoomForPosition, hw] using this

/-- C9. Zone membership: `getJitsiRoomForPosition` returns none exactly when
no loaded zone's axis-aligned rectangle (inclusive on both bounds) contains
the point; a returned room always belongs to a containing zone; and when
several zones contain the point the first-loaded one wins (the zone list is
in `jitsiZones` insertion order, which is `loadMap`'s load order). -/
theorem getJitsiRoomForPosition_spec (zones : List Zone) (x y : Int) :
    (getJitsiRoomForPosition zones x y = none ↔
        ∀ z ∈ zones, zoneContains z x y = false) ∧
      (∀ r, getJitsiRoomForPosition zones x y = some r →
        ∃ z ∈ zones, z.room = r ∧ zoneContains z x y = true) ∧
      (∀ (pre : List Zone) (z : Zone) (post : List Zone),
        zones = pre ++ z :: post → zoneContains z x y = true →
        (∀ w ∈ pre, zoneContains w x y = false) →
        getJitsiRoomForPosition zones x y = some z.room) := by
  refine ⟨getJitsiRoomForPosition_eq_none x y zones,
    fun r => getJitsiRoomForPosition_eq_some x y r zones,
    fun pre z post heq hz hpre => ?_⟩
  rw [heq]
  exact getJitsiRoomForPosition_first x y pre z post hz hpre

/-- Witness for C9: two overlapping zones both containing (10,10); the
first-loaded one ("conf1") wins. -/
theorem getJitsiRoomForPosition_spec_witness :
    getJitsiRoomForPosition [⟨"conf1", 0, 0, 50, 50⟩, ⟨"conf2", 0, 0, 60, 60⟩] 10 10
      = some (Zone.room ⟨"conf1", 0, 0, 50, 50⟩) :=
  (getJitsiRoomForPosition_spec [⟨"conf1", 0, 0, 50, 50⟩, ⟨"conf2", 0, 0, 60, 60⟩] 10 10).2.2
    [] ⟨"conf1", 0, 0, 50, 50⟩ [⟨"conf2", 0, 0, 60, 60⟩] rfl (by decide) (by decide)

/-- C8 counterexample: with non-overlapping zones Z = "conf1" at
rect(0,0,50,50) and W = "conf2" at rect(100,100,50,50), a player whose
stored membership is "conf1" recomputed at (110,110) — a position no longer
inside Z — gets only `join-jitsi "conf2"`: no `leave-jitsi` naming "conf1"
is emitted, and the stored membership becomes "conf2", not none. -/
theorem checkJitsiZone_transfer_cex :
    checkJitsiZone [⟨"conf1", 0, 0, 50, 50⟩, ⟨"conf2", 100, 100, 50, 50⟩] "conf1" 110 110
        = ("conf2", [JEvent.join "conf2"]) ∧
      JEvent.leave "conf1" ∉
        (checkJitsiZone [⟨"conf1", 0, 0, 50, 50⟩,
          ⟨"conf2", 100, 100, 50, 50⟩] "conf1" 110 110).2 := by
  decide

/-- C8 amended: when the recomputed position lies in no zone, the stored
membership transitions to the none sentinel and exactly one `leave-jitsi`
event naming the previously stored membership is emitted (in particular,
leaving zone Z for open space yields exactly one close naming Z); when the
player moves directly from one zone into a different one, only a
`join-jitsi` for the new zone is emitted and no leave for the old one. A
single recomputation emits at most one event, so never a join and a leave
simultaneously. -/
theorem checkJitsiZone_close_spec (zones : List Zone) (cur : String) (x y : Int) :
    (getJitsiRoomForPosition zones x y = none →
        checkJitsiZone zones cur x y = ("null", [JEvent.leave cur])) ∧
      (checkJitsiZone zones cur x y).2.length ≤ 1 := by
  constructor
  · intro h
    simp [checkJitsiZone, h]
  · unfold checkJitsiZone
    rcases hr : getJitsiRoomForPosition zones x y with _ | r
    · simp
    · by_cases h : cur = r <;> simp [h]

/-- Witness for C8 (spec's example scenario): membership "conf1", position
(60,60) outside the single zone rect(0,0,50,50). -/
theorem checkJitsiZone_close_spec_witness :
    checkJitsiZone [⟨"conf1", 0, 0, 50, 50⟩] "conf1" 60 60
        = ("null", [JEvent.leave "conf1"]) ∧
      (checkJitsiZone [⟨"conf1", 0, 0, 50, 50⟩] "conf1" 60 60).2.length ≤ 1 :=
  ⟨(checkJitsiZone_close_spec [⟨"conf1", 0, 0, 50, 50⟩] "conf1" 60 60).1 (by decide),
    (checkJitsiZone_close_spec [⟨"conf1", 0, 0, 50, 50⟩] "conf1" 60 60).2⟩
